import Mathlib

/-!
Verification of the human-in-the-loop rejection-reconciliation subsystem of
the `personal_assistant` email agent: the `PostInterruptMemoryMiddleware`
(`middleware/email_post_interrupt.py`) together with the memory helpers
`get_memory` / `update_memory` / `aupdate_memory` (`utils.py`).

The Python code is shallowly embedded: messages, tool calls and the
key-value store become inductive types, the mutable instance state
(`self._processed_tool_calls`) and the external store become explicitly
threaded state, and the hosted language model becomes an oracle parameter
returning `Except` (so that a raised exception is an `error` value).
-/

/-! ## JSON values (tool-call argument mappings) -/

/-- JSON-like values, as carried by the `args` mapping of a tool call
(`dict` with string keys mapping to arbitrary JSON-like values). -/
inductive Json where
  | null
  | jbool (b : Bool)
  | num (n : Int)
  | str (s : String)
  | arr (elems : List Json)
  | obj (members : List (String × Json))
deriving Repr

/-- Argument mapping of a tool call: string keys to JSON-like values, in
insertion order. The empty list is the empty mapping `\x7b\x7d`. -/
abbrev Args := List (String × Json)

/-- Two-space indentation prefix at a nesting level, as produced by
`json.dumps(..., indent=2)`. -/
def indentOf (lvl : Nat) : String := String.join (List.replicate lvl "  ")

/-- Escape of a single character inside a JSON string literal (the common
escapes of `json.dumps`: backslash, quote, newline, tab, carriage return). -/
def Json.quoteChar (c : Char) : String :=
  if c = '\\' then "\\\\"
  else if c = '"' then "\\\""
  else if c = '\n' then "\\n"
  else if c = '\t' then "\\t"
  else if c = '\r' then "\\r"
  else String.singleton c

/-- JSON string literal with quotes, as serialized by `json.dumps`. -/
def Json.quote (s : String) : String :=
  "\"" ++ String.join (s.data.map Json.quoteChar) ++ "\""

mutual

/-- Serialization of a JSON value at a nesting level, following
`json.dumps(value, indent=2)`: containers spread over lines, two spaces of
indentation per level, `", "`-free members separated by `",\n"`. -/
def Json.dumpsAt : Nat → Json → String
  | _, .null => "null"
  | _, .jbool b => if b then "true" else "false"
  | _, .num n => toString n
  | _, .str s => Json.quote s
  | _, .arr [] => "[]"
  | lvl, .arr (e :: es) =>
      "[\n" ++ Json.dumpsElems (lvl + 1) (e :: es) ++ "\n" ++ indentOf lvl ++ "]"
  | _, .obj [] => "\x7b\x7d"
  | lvl, .obj (m :: ms) =>
      "\x7b\n" ++ Json.dumpsMembers (lvl + 1) (m :: ms) ++ "\n" ++ indentOf lvl ++ "\x7d"

/-- Serialization of the elements of a JSON array, one per line. -/
def Json.dumpsElems : Nat → List Json → String
  | _, [] => ""
  | lvl, [e] => indentOf lvl ++ Json.dumpsAt lvl e
  | lvl, e :: e2 :: es =>
      indentOf lvl ++ Json.dumpsAt lvl e ++ ",\n" ++ Json.dumpsElems lvl (e2 :: es)

/-- Serialization of the members of a JSON object, one `"key": value` per line. -/
def Json.dumpsMembers : Nat → List (String × Json) → String
  | _, [] => ""
  | lvl, [(k, v)] => indentOf lvl ++ Json.quote k ++ ": " ++ Json.dumpsAt lvl v
  | lvl, (k, v) :: m2 :: ms =>
      indentOf lvl ++ Json.quote k ++ ": " ++ Json.dumpsAt lvl v ++ ",\n" ++
        Json.dumpsMembers lvl (m2 :: ms)

end

/-- Top-level serialization, `json.dumps(value, indent=2)` as used for the
`args_str` of `_update_memory_for_reject`. -/
def Json.dumps (j : Json) : String := Json.dumpsAt 0 j

/-! ## Conversation history -/

/-- Tool invocation issued by an assistant message: the entries of
`AIMessage.tool_calls`, each a mapping with `id`, `name` and `args`. -/
structure ToolCall where
  id : String
  name : String
  args : Args
deriving Repr

/-- Message of the conversation history. The three shapes the middleware
distinguishes by duck typing: a `ToolMessage` has both a `status` and a
`tool_call_id` attribute (plus `name` and `content`); an `AIMessage` is
recognized by `isinstance` and carries `tool_calls`; everything else (human
or plain text messages) matches neither test. -/
inductive Message where
  | human (content : String)
  | ai (content : String) (tool_calls : List ToolCall)
  | tool (content : String) (name : String) (tool_call_id : String) (status : String)
deriving Repr

/-- Agent state as the hooks read it. Modelled from the spec:
`EmailAssistantState` (declared in the repository's `schemas` module, which
is not among the source files) extends the agent state whose `messages`
field holds the append-only ConversationHistory; the hooks access it only
through `state.get("messages", [])`. -/
structure AgentState where
  messages : List Message

/-- Message as sent to the structured-output language model: the system
instruction, the raw history messages, and the appended feedback dict with
role `user`. -/
inductive ChatMsg where
  | system (content : String)
  | user (content : String)
  | history (m : Message)

/-! ## The external key-value store -/

/-- Store address: a two-element namespace path plus a key. -/
abbrev StoreKey := (String × String) × String

/-- External key-value store (`BaseStore`): an association list from
namespace/key pairs to stored values, newest entry first. A stored value is
`Option String` because Python code may `put` a `None` document (for
instance `get_memory` seeding with a `None` default); an *absent* entry is
modelled by `Store.get` returning `none`. -/
abbrev Store := List (StoreKey × Option String)

/-- Lookup, `store.get(namespace, key)`: `none` models the store returning
no item, `some v` models an `Item` whose `.value` is `v`. -/
def Store.get : Store → (String × String) → String → Option (Option String)
  | [], _, _ => none
  | (k, v) :: rest, ns, key =>
      if k = (ns, key) then some v else Store.get rest ns key

/-- Write, `store.put(namespace, key, value)`: the new binding shadows any
older binding of the same namespace/key pair. -/
def Store.put (s : Store) (ns : String × String) (key : String) (v : Option String) : Store :=
  ((ns, key), v) :: s

/-- Fixed namespace used by the middleware for the user profile,
`("email_assistant", "user_profile")`. -/
def userProfileNamespace : String × String := ("email_assistant", "user_profile")

/-! ## Prompts (`prompts.py`) -/

/-- Text of `MEMORY_UPDATE_INSTRUCTIONS` before the `current_profile`
placeholder. -/
def MEMORY_UPDATE_INSTRUCTIONS_head : String :=
  "\n# Role and Objective\nYou are a memory profile manager for an email assistant agent that selectively updates the user's profile based on feedback from human-in-the-loop interactions.\n\n# Context\nWhen users reject tool calls (emails, calendar invitations, questions), you receive:\n- The CURRENT user profile\n- The REJECTED tool call and its arguments\n- Optional user feedback explaining why they rejected\n\nYour job is to learn from these rejections and update the user's profile.\n\n# Instructions\n- NEVER overwrite the entire user profile\n- ONLY make targeted additions of new information based on the rejection\n- ONLY update specific facts that are directly contradicted by the feedback\n- PRESERVE all other existing information in the profile\n- Keep the profile structure consistent (triage criteria, response style, scheduling preferences)\n- Generate the profile as a string\n- Target length: 15-25 lines of moderate detail\n\n# Profile Structure\nThe user profile contains three main sections:\n1. **Triage criteria**: When to respond/notify/ignore emails\n2. **Response style**: How to draft emails and handle different scenarios\n3. **Meeting scheduling**: Calendar and scheduling preferences\n\nFocus your updates on the section most relevant to the rejected tool call.\n\n# Reasoning Steps\n1. Analyze the current user profile structure and content\n2. Identify which tool was rejected and why (from feedback)\n3. Determine which profile section(s) need updating (triage, response, or scheduling)\n4. Extract the underlying preference from the rejection\n5. Add or update the relevant preference in the appropriate section\n6. Preserve all other existing information\n7. Ensure the updated profile remains concise (15-25 lines)\n8. Output the complete updated profile\n\n# Example\n<user_profile>\nI'm Lance, a software engineer at LangChain. When triaging emails:\n- Respond to: Direct questions about technical work, meeting requests\n- Notify: GitHub notifications, deadline reminders\n- Ignore: Marketing newsletters\n\nResponse style:\n- Professional and concise tone\n- Acknowledge deadlines explicitly\n</user_profile>\n\n<rejected_tool_call>\nwrite_email(to=\"newsletter@company.com\", subject=\"Re: Monthly Update\", content=\"Thanks for the update...\")\n</rejected_tool_call>\n\n<user_feedback>\nThis is just a company newsletter, I don't need to respond to these.\n</user_feedback>\n\n<updated_profile>\nI'm Lance, a software engineer at LangChain. When triaging emails:\n- Respond to: Direct questions about technical work, meeting requests\n- Notify: GitHub notifications, deadline reminders, company newsletters\n- Ignore: Marketing newsletters, external promotional emails\n\nResponse style:\n- Professional and concise tone\n- Acknowledge deadlines explicitly\n</updated_profile>\n\n# Process current profile\n<user_profile>\n"

/-- Text of `MEMORY_UPDATE_INSTRUCTIONS` after the `current_profile`
placeholder. -/
def MEMORY_UPDATE_INSTRUCTIONS_tail : String :=
  "\n</user_profile>\n\nThe rejected tool call and user feedback will be provided in the user message. Think step by step about what the user rejected and what preference this reveals. Update the user profile to reflect this preference while preserving all other existing information."

/-- Constant `MEMORY_UPDATE_INSTRUCTIONS_REINFORCEMENT` appended to every
composed rejection-feedback message. -/
def MEMORY_UPDATE_INSTRUCTIONS_REINFORCEMENT : String :=
  "\nRemember:\n- NEVER overwrite the entire user profile\n- ONLY make targeted additions of new information\n- ONLY update specific facts that are directly contradicted by feedback messages\n- PRESERVE all other existing information in the profile\n- Format the profile consistently with the original style\n- Generate the profile as a string\n- Target length: 15-25 lines of moderate detail\n"

/-- Rendering of a possibly-`None` Python value interpolated into a format
string: `str(None)` is the text `None`. -/
def pyStr : Option String → String
  | none => "None"
  | some s => s

/-- System instruction of the profile update,
`MEMORY_UPDATE_INSTRUCTIONS.format(current_profile=..., namespace=...)`.
The template has a placeholder only for `current_profile`; the extra
`namespace` keyword argument is ignored by `str.format`. -/
def memoryUpdateSystemPrompt (current_profile : Option String) : String :=
  MEMORY_UPDATE_INSTRUCTIONS_head ++ pyStr current_profile ++ MEMORY_UPDATE_INSTRUCTIONS_tail

/-! ## Memory helpers (`utils.py`) -/

/-- Structured output schema of the profile update. Modelled from the spec:
the `UserPreferences` schema lives in the repository's `schemas` module,
which is not among the source files; per the spec it is a single-field
profile document schema, and `update_memory` reads the field as
`result.user_preferences`. -/
structure UserPreferences where
  user_preferences : String

/-- External structured-output language model, `llm.invoke` /
`llm.ainvoke` after `init_chat_model(...).with_structured_output(UserPreferences)`:
an oracle from the message list to either a result or a raised exception
(`Except.error` with the exception text). -/
abbrev LLM := List ChatMsg → Except String UserPreferences

/-- Exception propagating out of `update_memory` / `aupdate_memory`:
either the `AttributeError` from reading `.value` on an absent store item,
or an exception raised by the language-model call. -/
inductive MemError where
  | attributeError
  | llmError (msg : String)
deriving Repr, DecidableEq

/-- Translation of `get_memory(store, namespace, default_content)`: read the
profile item at key `"user_preferences"`; if an item exists return its
value unchanged (no write); otherwise put the supplied default at that
namespace/key and return the default. The pair is (returned value,
resulting store). -/
def get_memory (store : Store) (ns : String × String) (default_content : Option String) :
    Option String × Store :=
  match Store.get store ns "user_preferences" with
  | some value => (value, store)
  | none => (default_content, Store.put store ns "user_preferences" default_content)

/-- Translation of `aget_memory`, the async twin of `get_memory` (the
`await`s of the Python coroutine are erased by the embedding). -/
def aget_memory (store : Store) (ns : String × String) (default_content : Option String) :
    Option String × Store :=
  match Store.get store ns "user_preferences" with
  | some value => (value, store)
  | none => (default_content, Store.put store ns "user_preferences" default_content)

/-- Translation of `update_memory(store, namespace, messages)`: read the
existing profile item (raising `AttributeError` if the store holds none,
since the code reads `user_preferences.value` without a check), invoke the
structured-output model on the system instruction plus `messages`
(propagating any exception), and put the returned document at
`(namespace, "user_preferences")`. -/
def update_memory (llm : LLM) (store : Store) (ns : String × String)
    (messages : List ChatMsg) : Except MemError Store :=
  match Store.get store ns "user_preferences" with
  | none => Except.error MemError.attributeError
  | some value =>
      match llm (ChatMsg.system (memoryUpdateSystemPrompt value) :: messages) with
      | Except.error e => Except.error (MemError.llmError e)
      | Except.ok result =>
          Except.ok (Store.put store ns "user_preferences" (some result.user_preferences))

/-- Translation of `aupdate_memory`, the async twin of `update_memory`
(`await store.aget`, `llm.ainvoke`, `await store.aput`; the suspensions are
erased by the embedding). -/
def aupdate_memory (llm : LLM) (store : Store) (ns : String × String)
    (messages : List ChatMsg) : Except MemError Store :=
  match Store.get store ns "user_preferences" with
  | none => Except.error MemError.attributeError
  | some value =>
      match llm (ChatMsg.system (memoryUpdateSystemPrompt value) :: messages) with
      | Except.error e => Except.error (MemError.llmError e)
      | Except.ok result =>
          Except.ok (Store.put store ns "user_preferences" (some result.user_preferences))

/-! ## The middleware (`middleware/email_post_interrupt.py`) -/

/-- Fixed set of interrupt tools the middleware cares about,
`self.interrupt_tools = \x7b"write_email", "schedule_meeting", "Question"\x7d`. -/
def interrupt_tools : List String := ["write_email", "schedule_meeting", "Question"]

/-- Runtime handed to a hook; its `store` field models the presence of a
`store` attribute (`hasattr(runtime, "store")`). -/
structure Runtime where
  store : Option Store

/-- Translation of `PostInterruptMemoryMiddleware._get_store(runtime)`:
prefer the runtime-provided store (deployment mode), fall back to the
instance store passed at initialization (local mode). -/
def _get_store (runtime : Option Runtime) (instance_store : Store) : Store :=
  match runtime with
  | some rt =>
      match rt.store with
      | some s => s
      | none => instance_store
  | none => instance_store

/-- Inner loop of the argument reconstruction: first entry of
`msg.tool_calls` whose `id` equals the rejected `tool_call_id`, if any. -/
def findToolCallArgsFirst : List ToolCall → String → Option Args
  | [], _ => none
  | tc :: rest, tool_call_id =>
      if tc.id = tool_call_id then some tc.args else findToolCallArgsFirst rest tool_call_id

/-- Outer loop of the argument reconstruction over the already-reversed
message list: at an `AIMessage`, take the first tool call matching the
identifier; a matching empty mapping leaves `original_args` falsy, so the
scan continues to older messages exactly as the Python loop does. -/
def findOriginalArgsGo (tool_call_id : String) : List Message → Args
  | [] => []
  | Message.ai _ tool_calls :: rest =>
      match findToolCallArgsFirst tool_calls tool_call_id with
      | some args => if args.isEmpty then findOriginalArgsGo tool_call_id rest else args
      | none => findOriginalArgsGo tool_call_id rest
  | _ :: rest => findOriginalArgsGo tool_call_id rest

/-- Argument reconstruction: walk the history newest-first
(`for msg in reversed(messages)`) looking for the assistant tool call with
the rejected identifier; yields the empty mapping when no (nonempty) match
is found. -/
def findOriginalArgs (messages : List Message) (tool_call_id : String) : Args :=
  findOriginalArgsGo tool_call_id messages.reverse

/-- Tool-specific critique text of `_update_memory_for_reject`: the
`if/elif` chain over the rejected tool name, with a generic fallback naming
the tool. -/
def rejectFeedback (tool_name : String) : String :=
  if tool_name = "write_email" then
    "The user rejected the email draft, meaning they did not want to respond to this email. Update the User Profile to refine triage criteria (which emails warrant responses) and/or response style preferences based on what was wrong with the draft."
  else if tool_name = "schedule_meeting" then
    "The user rejected the meeting invitation, meaning they did not want to schedule this meeting. Update the User Profile to refine triage criteria (which meeting requests warrant scheduling) and/or meeting scheduling preferences based on what was wrong with the invitation."
  else if tool_name = "Question" then
    "The user rejected the clarification question, meaning they did not want to ask this question. Update the User Profile to refine when questions should be asked or how they should be phrased."
  else
    "The user rejected the " ++ tool_name ++ " tool call. Update the User Profile to learn from this feedback and avoid similar rejections in the future."

/-- Content of the feedback message appended for the profile update: the
tool-specific critique, the rejected tool name, the serialized arguments
(`json.dumps(original_args, indent=2)`), the user's free-text rationale
when one was provided (`rejection_message` truthy), and the reinforcement
of the non-destructive editing rules. Both `_update_memory_for_reject` and
`_aupdate_memory_for_reject` build this same f-string. -/
def rejectContent (tool_name : String) (original_args : Args) (rejection_message : String) :
    String :=
  rejectFeedback tool_name ++ "\n\nRejected tool call: " ++ tool_name ++ "\nArguments: " ++
    Json.dumps (Json.obj original_args) ++
    (if rejection_message ≠ "" then "\n\nUser's rejection reason: " ++ rejection_message else "") ++
    "\n\nFollow all instructions above, and remember: " ++ MEMORY_UPDATE_INSTRUCTIONS_REINFORCEMENT

/-- Translation of `_update_memory_for_reject`: compose the feedback
content, append it as a user message after the conversation history, and
run `update_memory` against the store at the fixed profile namespace. -/
def updateMemoryForReject (llm : LLM) (tool_name : String) (original_args : Args)
    (rejection_message : String) (state : AgentState) (store : Store) : Except MemError Store :=
  update_memory llm store userProfileNamespace
    (state.messages.map ChatMsg.history ++
      [ChatMsg.user (rejectContent tool_name original_args rejection_message)])

/-- Translation of `_aupdate_memory_for_reject`, the async twin: the same
composed feedback (the Python method repeats the same literals), calling
`aupdate_memory` instead. -/
def aupdateMemoryForReject (llm : LLM) (tool_name : String) (original_args : Args)
    (rejection_message : String) (state : AgentState) (store : Store) : Except MemError Store :=
  aupdate_memory llm store userProfileNamespace
    (state.messages.map ChatMsg.history ++
      [ChatMsg.user (rejectContent tool_name original_args rejection_message)])

/-- Mutable middleware/store state threaded through a hook invocation:
`store` is the store `_get_store` resolves to (runtime-provided in
deployment, else the instance store) and `processed` is the instance's
`self._processed_tool_calls` set, as the list of identifiers inserted so
far (each guarded insertion is a cons, so it carries no duplicates). -/
structure World where
  store : Store
  processed : List String

/-- Record of one invocation of the profile updater
(`_update_memory_for_reject` / `_aupdate_memory_for_reject`): the rejected
tool call identifier, tool name, reconstructed arguments and rejection
message the updater was called with. -/
structure UpdateCall where
  tool_call_id : String
  tool_name : String
  args : Args
  rejection_message : String

/-- Result of one hook invocation: the final world, the updater invocations
attempted in order, the exception that propagated out (if any), and the
value the hook returned to the framework (`None` on every path; no value at
all, hence also `none`, when an exception propagated). -/
structure HookResult where
  world : World
  calls : List UpdateCall
  raised : Option MemError
  ret : Option Unit

/-- Detection loop of `before_model` over the reversed message list: a
`ToolMessage` with `status == "error"` whose tool name is interruptible
and whose identifier is not yet processed triggers argument reconstruction
and a profile update; on success the identifier is marked processed and
the scan continues, while an exception aborts the loop and propagates,
leaving the identifier unmarked. -/
def beforeModelGo (llm : LLM) (state : AgentState) :
    List Message → World → World × List UpdateCall × Option MemError
  | [], w => (w, [], none)
  | Message.tool content name tool_call_id status :: rest, w =>
      if status = "error" ∧ name ∈ interrupt_tools ∧ tool_call_id ∉ w.processed then
        let original_args := findOriginalArgs state.messages tool_call_id
        match updateMemoryForReject llm name original_args content state w.store with
        | Except.error e =>
            (w, [⟨tool_call_id, name, original_args, content⟩], some e)
        | Except.ok store2 =>
            let r := beforeModelGo llm state rest ⟨store2, tool_call_id :: w.processed⟩
            (r.1, ⟨tool_call_id, name, original_args, content⟩ :: r.2.1, r.2.2)
      else beforeModelGo llm state rest w
  | _ :: rest, w => beforeModelGo llm state rest w

/-- Translation of `PostInterruptMemoryMiddleware.before_model`: scan the
history newest-first for rejections and reconcile each unprocessed one,
then `return None`. -/
def before_model (llm : LLM) (state : AgentState) (w : World) : HookResult :=
  let r := beforeModelGo llm state state.messages.reverse w
  ⟨r.1, r.2.1, r.2.2, none⟩

/-- Detection loop of `after_tool`: the same loop as `before_model`
(the Python source duplicates the body verbatim). -/
def afterToolGo (llm : LLM) (state : AgentState) :
    List Message → World → World × List UpdateCall × Option MemError
  | [], w => (w, [], none)
  | Message.tool content name tool_call_id status :: rest, w =>
      if status = "error" ∧ name ∈ interrupt_tools ∧ tool_call_id ∉ w.processed then
        let original_args := findOriginalArgs state.messages tool_call_id
        match updateMemoryForReject llm name original_args content state w.store with
        | Except.error e =>
            (w, [⟨tool_call_id, name, original_args, content⟩], some e)
        | Except.ok store2 =>
            let r := afterToolGo llm state rest ⟨store2, tool_call_id :: w.processed⟩
            (r.1, ⟨tool_call_id, name, original_args, content⟩ :: r.2.1, r.2.2)
      else afterToolGo llm state rest w
  | _ :: rest, w => afterToolGo llm state rest w

/-- Translation of `PostInterruptMemoryMiddleware.after_tool`, the
defensive fallback hook: an early `return None` when the message list is
empty, otherwise the same scan as `before_model`. -/
def after_tool (llm : LLM) (state : AgentState) (w : World) : HookResult :=
  if state.messages.isEmpty then ⟨w, [], none, none⟩
  else
    let r := afterToolGo llm state state.messages.reverse w
    ⟨r.1, r.2.1, r.2.2, none⟩

/-- Detection loop of `abefore_model`: the async duplicate of the
`before_model` loop, awaiting `_aupdate_memory_for_reject`. -/
def abeforeModelGo (llm : LLM) (state : AgentState) :
    List Message → World → World × List UpdateCall × Option MemError
  | [], w => (w, [], none)
  | Message.tool content name tool_call_id status :: rest, w =>
      if status = "error" ∧ name ∈ interrupt_tools ∧ tool_call_id ∉ w.processed then
        let original_args := findOriginalArgs state.messages tool_call_id
        match aupdateMemoryForReject llm name original_args content state w.store with
        | Except.error e =>
            (w, [⟨tool_call_id, name, original_args, content⟩], some e)
        | Except.ok store2 =>
            let r := abeforeModelGo llm state rest ⟨store2, tool_call_id :: w.processed⟩
            (r.1, ⟨tool_call_id, name, original_args, content⟩ :: r.2.1, r.2.2)
      else abeforeModelGo llm state rest w
  | _ :: rest, w => abeforeModelGo llm state rest w

/-- Translation of `PostInterruptMemoryMiddleware.abefore_model`, the async
top-of-turn hook; the source defines no async counterpart of `after_tool`. -/
def abefore_model (llm : LLM) (state : AgentState) (w : World) : HookResult :=
  let r := abeforeModelGo llm state state.messages.reverse w
  ⟨r.1, r.2.1, r.2.2, none⟩

/-- Hook methods of `PostInterruptMemoryMiddleware` on the synchronous code
path, in source order: `before_model` (line 38) and `after_tool` (line 93). -/
def syncHookEntryPoints : List String := ["before_model", "after_tool"]

/-- Hook methods of `PostInterruptMemoryMiddleware` on the asynchronous
code path: the section `# Async versions` defines `abefore_model`
(line 195) and the helper `_aupdate_memory_for_reject` only; it contains no
async counterpart of the `after_tool` fallback hook. -/
def asyncHookEntryPoints : List String := ["abefore_model"]

/-! ## Specification-side helpers -/

/-- Data of one rejected interruptible tool result: content (the rejection
message), tool name and correlation identifier of a `ToolMessage` with
`status = "error"` whose tool is interruptible. -/
structure RejRecord where
  content : String
  name : String
  tool_call_id : String
deriving Repr, DecidableEq

/-- Selection of a rejected interruptible tool result from one message:
`some` exactly for a `ToolMessage` with `status = "error"` and an
interruptible tool name. -/
def isInterruptibleRejection : Message → Option RejRecord
  | Message.tool content name tool_call_id status =>
      if status = "error" ∧ name ∈ interrupt_tools then some ⟨content, name, tool_call_id⟩
      else none
  | _ => none

/-- Rejected interruptible tool results of a history, newest-first (the
traversal order of the detection loops). -/
def interruptibleRejections (messages : List Message) : List RejRecord :=
  messages.reverse.filterMap isInterruptibleRejection

/-- Declarative description of one detection pass: fold over the
newest-first rejection records, skipping identifiers already processed and
otherwise emitting an updater invocation and marking the identifier. -/
def detectSpec (all : List Message) : List RejRecord → List String → List UpdateCall × List String
  | [], p => ([], p)
  | r :: rs, p =>
      if r.tool_call_id ∈ p then detectSpec all rs p
      else
        let out := detectSpec all rs (r.tool_call_id :: p)
        (⟨r.tool_call_id, r.name, findOriginalArgs all r.tool_call_id, r.content⟩ :: out.1,
         out.2)

/-- Hook entry point of the reconciliation subsystem within one turn. -/
inductive HookPoint where
  | beforeModel
  | afterTool
deriving Repr, DecidableEq

/-- Dispatch of one hook invocation on the current world. -/
def runHook (llm : LLM) (state : AgentState) : HookPoint → World → HookResult
  | HookPoint.beforeModel, w => before_model llm state w
  | HookPoint.afterTool, w => after_tool llm state w

/-- Run of a sequence of hook invocations in a single turn against the same
conversation history, threading the world and collecting every updater
invocation. -/
def runTurn (llm : LLM) (state : AgentState) : List HookPoint → World → World × List UpdateCall
  | [], w => (w, [])
  | h :: hs, w =>
      let r := runHook llm state h w
      let rest := runTurn llm state hs r.world
      (rest.1, r.calls ++ rest.2)

/-- Language-model oracle that never raises. -/
def LLMok (llm : LLM) : Prop := ∀ input, ∃ r, llm input = Except.ok r

/-- Store holding an item (of any value) at the profile namespace and key,
the precondition for `update_memory` not to raise. -/
def HasProfile (s : Store) : Prop :=
  (Store.get s userProfileNamespace "user_preferences").isSome = true

/-- Substring containment: `sub` occurs contiguously inside `s`. -/
def ContainsStr (s sub : String) : Prop := ∃ pre post, s = pre ++ sub ++ post

/-- Tool calls carried by one message: those of an assistant message,
none for any other message kind. -/
def messageToolCalls : Message → List ToolCall
  | Message.ai _ tool_calls => tool_calls
  | _ => []

/-- All assistant tool calls of a history, oldest-first. -/
def allToolCalls (messages : List Message) : List ToolCall :=
  messages.flatMap messageToolCalls

/-- Witness fixture: a language-model oracle that always returns a fixed
profile document. -/
def okLLM : LLM := fun _ => Except.ok ⟨"the profile"⟩

/-- Witness fixture: a language-model oracle that always raises. -/
def failLLM : LLM := fun _ => Except.error "boom"

/-- Witness fixture: a store holding a profile document at the fixed
profile namespace and key. -/
def wStore : Store := [((userProfileNamespace, "user_preferences"), some "the profile")]

/-- Witness fixture: a history with one assistant tool call and one
rejected interruptible tool result correlated to it. -/
def wMessages : List Message :=
  [Message.ai "" [⟨"id1", "write_email", [("to", Json.str "bob@example.com")]⟩],
   Message.tool "too formal" "write_email" "id1" "error"]

/-- Witness fixture: a history with two rejected interruptible tool results
with distinct correlation identifiers, plus a successful result and a
non-interruptible error result that must never be processed. -/
def wMessages2 : List Message :=
  [Message.ai "" [⟨"id1", "write_email", []⟩, ⟨"id2", "schedule_meeting", []⟩],
   Message.tool "ok" "write_email" "id0" "success",
   Message.tool "oops" "other_tool" "id9" "error",
   Message.tool "no" "write_email" "id1" "error",
   Message.tool "wrong day" "schedule_meeting" "id2" "error"]

/-! ## Basic lemmas -/

theorem Store.get_put_same (s : Store) (ns : String × String) (key : String) (v : Option String) :
    Store.get (Store.put s ns key v) ns key = some v := by
  simp [Store.put, Store.get]

theorem containsStr_refl (s : String) : ContainsStr s s :=
  ⟨"", "", by simp [String.empty_append, String.append_empty]⟩

theorem containsStr_append_left {a sub : String} (b : String) (h : ContainsStr a sub) :
    ContainsStr (a ++ b) sub := by
  obtain ⟨pre, post, rfl⟩ := h
  exact ⟨pre, post ++ b, by simp [String.append_assoc]⟩

theorem containsStr_append_right {b sub : String} (a : String) (h : ContainsStr b sub) :
    ContainsStr (a ++ b) sub := by
  obtain ⟨pre, post, rfl⟩ := h
  exact ⟨a ++ pre, post, by simp [String.append_assoc]⟩

theorem updateMemoryForReject_ok (llm : LLM) (tool_name : String) (args : Args)
    (rej : String) (state : AgentState) (store : Store)
    (hllm : LLMok llm) (hstore : HasProfile store) :
    ∃ store2, updateMemoryForReject llm tool_name args rej state store = Except.ok store2 ∧
      HasProfile store2 := by
  obtain ⟨v, hv⟩ := Option.isSome_iff_exists.mp hstore
  obtain ⟨r, hr⟩ := hllm (ChatMsg.system (memoryUpdateSystemPrompt v) ::
    (state.messages.map ChatMsg.history ++
      [ChatMsg.user (rejectContent tool_name args rej)]))
  refine ⟨Store.put store userProfileNamespace "user_preferences" (some r.user_preferences),
    ?_, ?_⟩
  · simp [updateMemoryForReject, update_memory, hv, hr]
  · simp [HasProfile, Store.get_put_same]

theorem updateMemoryForReject_fail (llm : LLM) (tool_name : String) (args : Args)
    (rej : String) (state : AgentState) (store : Store) (err : String)
    (hfail : ∀ input, llm input = Except.error err) (hstore : HasProfile store) :
    updateMemoryForReject llm tool_name args rej state store =
      Except.error (MemError.llmError err) := by
  obtain ⟨v, hv⟩ := Option.isSome_iff_exists.mp hstore
  simp [updateMemoryForReject, update_memory, hv, hfail]

theorem aupdate_memory_eq_update_memory : aupdate_memory = update_memory := rfl

theorem aupdateMemoryForReject_eq : aupdateMemoryForReject = updateMemoryForReject := rfl

theorem afterToolGo_eq (llm : LLM) (state : AgentState) :
    ∀ ms w, afterToolGo llm state ms w = beforeModelGo llm state ms w := by
  intro ms
  induction ms with
  | nil => intro w; rfl
  | cons m rest ih =>
      intro w
      cases m with
      | human content => simpa [afterToolGo, beforeModelGo] using ih w
      | ai content tcs => simpa [afterToolGo, beforeModelGo] using ih w
      | tool content name tcid status =>
          by_cases hc : status = "error" ∧ name ∈ interrupt_tools ∧ tcid ∉ w.processed
          · cases hmem : updateMemoryForReject llm name (findOriginalArgs state.messages tcid)
                content state w.store with
            | error e => simp [afterToolGo, beforeModelGo, hc, hmem]
            | ok store2 => simp [afterToolGo, beforeModelGo, hc, hmem, ih]
          · simpa [afterToolGo, beforeModelGo, hc] using ih w

theorem abeforeModelGo_eq (llm : LLM) (state : AgentState) :
    ∀ ms w, abeforeModelGo llm state ms w = beforeModelGo llm state ms w := by
  intro ms
  induction ms with
  | nil => intro w; rfl
  | cons m rest ih =>
      intro w
      cases m with
      | human content => simpa [abeforeModelGo, beforeModelGo] using ih w
      | ai content tcs => simpa [abeforeModelGo, beforeModelGo] using ih w
      | tool content name tcid status =>
          by_cases hc : status = "error" ∧ name ∈ interrupt_tools ∧ tcid ∉ w.processed
          · cases hmem : updateMemoryForReject llm name (findOriginalArgs state.messages tcid)
                content state w.store with
            | error e =>
                simp [abeforeModelGo, beforeModelGo, aupdateMemoryForReject_eq, hc, hmem]
            | ok store2 =>
                simp [abeforeModelGo, beforeModelGo, aupdateMemoryForReject_eq, hc, hmem, ih]
          · simpa [abeforeModelGo, beforeModelGo, hc] using ih w

theorem beforeModelGo_noop (llm : LLM) (state : AgentState) :
    ∀ ms w, (∀ r ∈ ms.filterMap isInterruptibleRejection, r.tool_call_id ∈ w.processed) →
    beforeModelGo llm state ms w = (w, [], none) := by
  intro ms
  induction ms with
  | nil => intro w _; rfl
  | cons m rest ih =>
      intro w h
      cases m with
      | human content =>
          simp only [beforeModelGo]
          exact ih w (by simpa [isInterruptibleRejection] using h)
      | ai content tcs =>
          simp only [beforeModelGo]
          exact ih w (by simpa [isInterruptibleRejection] using h)
      | tool content name tcid status =>
          by_cases hs : status = "error" ∧ name ∈ interrupt_tools
          · have hmem : tcid ∈ w.processed := by
              have := h ⟨content, name, tcid⟩
              simp [isInterruptibleRejection, hs] at this
              exact this
            have hc : ¬ (status = "error" ∧ name ∈ interrupt_tools ∧ tcid ∉ w.processed) := by
              simp [hs.1, hs.2, hmem]
            have hfm : (Message.tool content name tcid status :: rest).filterMap
                isInterruptibleRejection
                = ⟨content, name, tcid⟩ :: rest.filterMap isInterruptibleRejection := by
              simp [List.filterMap_cons, isInterruptibleRejection, hs]
            simp only [beforeModelGo, if_neg hc]
            refine ih w ?_
            intro r hr
            refine h r ?_
            rw [hfm]
            exact List.mem_cons_of_mem _ hr
          · have hc : ¬ (status = "error" ∧ name ∈ interrupt_tools ∧ tcid ∉ w.processed) := by
              intro hcon
              exact hs ⟨hcon.1, hcon.2.1⟩
            have hfm : (Message.tool content name tcid status :: rest).filterMap
                isInterruptibleRejection
                = rest.filterMap isInterruptibleRejection := by
              simp [List.filterMap_cons, isInterruptibleRejection, hs]
            simp only [beforeModelGo, if_neg hc]
            refine ih w ?_
            intro r hr
            refine h r ?_
            rw [hfm]
            exact hr

theorem detectSpec_processed (all : List Message) :
    ∀ rs p, (detectSpec all rs p).2 =
      ((detectSpec all rs p).1.map (fun c => c.tool_call_id)).reverse ++ p := by
  intro rs
  induction rs with
  | nil => intro p; simp [detectSpec]
  | cons r rest ih =>
      intro p
      by_cases hp : r.tool_call_id ∈ p
      · simp [detectSpec, hp, ih p]
      · simp [detectSpec, hp, ih (r.tool_call_id :: p), List.append_assoc]

theorem detectSpec_calls_ids (all : List Message) :
    ∀ rs p, (rs.map (fun r => r.tool_call_id)).Nodup →
    (detectSpec all rs p).1.map (fun c => c.tool_call_id) =
      (rs.map (fun r => r.tool_call_id)).filter (fun i => decide (i ∉ p)) := by
  intro rs
  induction rs with
  | nil => intro p _; simp [detectSpec]
  | cons r rest ih =>
      intro p hnd
      simp only [List.map_cons, List.nodup_cons] at hnd
      obtain ⟨hr, hrest⟩ := hnd
      by_cases hp : r.tool_call_id ∈ p
      · simp [detectSpec, hp, ih p hrest]
      · simp [detectSpec, hp, ih (r.tool_call_id :: p) hrest]
        apply List.filter_congr
        intro i hi
        have hne : i ≠ r.tool_call_id := by
          intro he
          exact hr (he ▸ hi)
        simp [hne]

theorem detectSpec_calls_mem (all : List Message) :
    ∀ rs p c, c ∈ (detectSpec all rs p).1 →
      ∃ r, r ∈ rs ∧
        c = ⟨r.tool_call_id, r.name, findOriginalArgs all r.tool_call_id, r.content⟩ ∧
        r.tool_call_id ∉ p := by
  intro rs
  induction rs with
  | nil => intro p c hc; simp [detectSpec] at hc
  | cons r rest ih =>
      intro p c hc
      by_cases hp : r.tool_call_id ∈ p
      · rw [detectSpec, if_pos hp] at hc
        obtain ⟨r2, hmem, heq, hnp⟩ := ih p c hc
        exact ⟨r2, List.mem_cons_of_mem _ hmem, heq, hnp⟩
      · rw [detectSpec, if_neg hp] at hc
        rcases List.mem_cons.mp hc with hhead | htail
        · exact ⟨r, List.mem_cons_self r rest, hhead, hp⟩
        · obtain ⟨r2, hmem, heq, hnp⟩ := ih (r.tool_call_id :: p) c htail
          refine ⟨r2, List.mem_cons_of_mem _ hmem, heq, ?_⟩
          intro hin
          exact hnp (List.mem_cons_of_mem _ hin)

theorem beforeModelGo_spec (llm : LLM) (state : AgentState) (hllm : LLMok llm) :
    ∀ ms w, HasProfile w.store →
    ∃ store2, beforeModelGo llm state ms w =
      (⟨store2, (detectSpec state.messages (ms.filterMap isInterruptibleRejection)
          w.processed).2⟩,
       (detectSpec state.messages (ms.filterMap isInterruptibleRejection) w.processed).1,
       none) ∧ HasProfile store2 := by
  intro ms
  induction ms with
  | nil =>
      intro w hw
      exact ⟨w.store, rfl, hw⟩
  | cons m rest ih =>
      intro w hw
      cases m with
      | human content =>
          obtain ⟨store2, heq, hst⟩ := ih w hw
          refine ⟨store2, ?_, hst⟩
          simpa [beforeModelGo, List.filterMap_cons, isInterruptibleRejection] using heq
      | ai content tcs =>
          obtain ⟨store2, heq, hst⟩ := ih w hw
          refine ⟨store2, ?_, hst⟩
          simpa [beforeModelGo, List.filterMap_cons, isInterruptibleRejection] using heq
      | tool content name tcid status =>
          by_cases hs : status = "error" ∧ name ∈ interrupt_tools
          · have hfm : (Message.tool content name tcid status :: rest).filterMap
                isInterruptibleRejection
                = ⟨content, name, tcid⟩ :: rest.filterMap isInterruptibleRejection := by
              simp [List.filterMap_cons, isInterruptibleRejection, hs]
            by_cases hp : tcid ∈ w.processed
            · have hc : ¬ (status = "error" ∧ name ∈ interrupt_tools ∧ tcid ∉ w.processed) := by
                simp [hs.1, hs.2, hp]
              obtain ⟨store2, heq, hst⟩ := ih w hw
              refine ⟨store2, ?_, hst⟩
              rw [beforeModelGo, if_neg hc, hfm, heq]
              simp [detectSpec, hp]
            · have hc : status = "error" ∧ name ∈ interrupt_tools ∧ tcid ∉ w.processed :=
                ⟨hs.1, hs.2, hp⟩
              obtain ⟨store2, hok, hst2⟩ := updateMemoryForReject_ok llm name
                (findOriginalArgs state.messages tcid) content state w.store hllm hw
              obtain ⟨store3, hrec, hst3⟩ := ih ⟨store2, tcid :: w.processed⟩ hst2
              refine ⟨store3, ?_, hst3⟩
              rw [beforeModelGo, if_pos hc]
              simp only [hok]
              rw [hfm]
              simp only [detectSpec, hp, if_neg hp]
              simp [hrec]
          · have hc : ¬ (status = "error" ∧ name ∈ interrupt_tools ∧ tcid ∉ w.processed) := by
              intro hcon
              exact hs ⟨hcon.1, hcon.2.1⟩
            have hfm : (Message.tool content name tcid status :: rest).filterMap
                isInterruptibleRejection
                = rest.filterMap isInterruptibleRejection := by
              simp [List.filterMap_cons, isInterruptibleRejection, hs]
            obtain ⟨store2, heq, hst⟩ := ih w hw
            refine ⟨store2, ?_, hst⟩
            rw [beforeModelGo, if_neg hc, hfm, heq]

theorem before_model_spec (llm : LLM) (state : AgentState) (w : World)
    (hllm : LLMok llm) (hw : HasProfile w.store) :
    ∃ store2, before_model llm state w =
      ⟨⟨store2, (detectSpec state.messages (interruptibleRejections state.messages)
          w.processed).2⟩,
       (detectSpec state.messages (interruptibleRejections state.messages) w.processed).1,
       none, none⟩ ∧ HasProfile store2 := by
  obtain ⟨store2, heq, hst⟩ := beforeModelGo_spec llm state hllm state.messages.reverse w hw
  refine ⟨store2, ?_, hst⟩
  simp [before_model, heq, interruptibleRejections]

theorem after_tool_spec (llm : LLM) (state : AgentState) (w : World)
    (hllm : LLMok llm) (hw : HasProfile w.store) :
    ∃ store2, after_tool llm state w =
      ⟨⟨store2, (detectSpec state.messages (interruptibleRejections state.messages)
          w.processed).2⟩,
       (detectSpec state.messages (interruptibleRejections state.messages) w.processed).1,
       none, none⟩ ∧ HasProfile store2 := by
  by_cases he : state.messages.isEmpty
  · have hnil : state.messages = [] := List.isEmpty_iff.mp he
    refine ⟨w.store, ?_, hw⟩
    simp [after_tool, he, hnil, interruptibleRejections, detectSpec]
  · obtain ⟨store2, heq, hst⟩ := beforeModelGo_spec llm state hllm state.messages.reverse w hw
    refine ⟨store2, ?_, hst⟩
    simp [after_tool, he, afterToolGo_eq, heq, interruptibleRejections]

theorem abefore_model_eq_before_model (llm : LLM) (state : AgentState) (w : World) :
    abefore_model llm state w = before_model llm state w := by
  simp [abefore_model, before_model, abeforeModelGo_eq]

theorem runHook_spec (llm : LLM) (state : AgentState) (w : World) (hp : HookPoint)
    (hllm : LLMok llm) (hw : HasProfile w.store) :
    ∃ store2, runHook llm state hp w =
      ⟨⟨store2, (detectSpec state.messages (interruptibleRejections state.messages)
          w.processed).2⟩,
       (detectSpec state.messages (interruptibleRejections state.messages) w.processed).1,
       none, none⟩ ∧ HasProfile store2 := by
  cases hp with
  | beforeModel => exact before_model_spec llm state w hllm hw
  | afterTool => exact after_tool_spec llm state w hllm hw

theorem runHook_noop (llm : LLM) (state : AgentState) (hp : HookPoint) (w : World)
    (h : ∀ r ∈ interruptibleRejections state.messages, r.tool_call_id ∈ w.processed) :
    runHook llm state hp w = ⟨w, [], none, none⟩ := by
  have hgo : beforeModelGo llm state state.messages.reverse w = (w, [], none) :=
    beforeModelGo_noop llm state state.messages.reverse w
      (by simpa [interruptibleRejections] using h)
  cases hp with
  | beforeModel => simp [runHook, before_model, hgo]
  | afterTool =>
      by_cases he : state.messages.isEmpty
      · simp [runHook, after_tool, he]
      · simp [runHook, after_tool, he, afterToolGo_eq, hgo]

theorem runTurn_noop (llm : LLM) (state : AgentState) :
    ∀ hooks w, (∀ r ∈ interruptibleRejections state.messages, r.tool_call_id ∈ w.processed) →
    runTurn llm state hooks w = (w, []) := by
  intro hooks
  induction hooks with
  | nil => intro w _; rfl
  | cons hp hs ih =>
      intro w h
      simp [runTurn, runHook_noop llm state hp w h, ih w h]

theorem after_tool_eq_before_model (llm : LLM) (state : AgentState) (w : World) :
    after_tool llm state w = before_model llm state w := by
  by_cases he : state.messages.isEmpty
  · have hnil : state.messages = [] := List.isEmpty_iff.mp he
    simp [after_tool, before_model, he, hnil, beforeModelGo]
  · simp [after_tool, before_model, he, afterToolGo_eq]

theorem containsStr_trans {s m sub : String} (h1 : ContainsStr s m) (h2 : ContainsStr m sub) :
    ContainsStr s sub := by
  obtain ⟨p, q, rfl⟩ := h1
  obtain ⟨p2, q2, rfl⟩ := h2
  exact ⟨p ++ p2, q2 ++ q, by simp [String.append_assoc]⟩

theorem rejectContent_contains_feedback (tn : String) (args : Args) (rej : String) :
    ContainsStr (rejectContent tn args rej) (rejectFeedback tn) := by
  unfold rejectContent
  exact containsStr_append_left _ (containsStr_append_left _ (containsStr_append_left _
    (containsStr_append_left _ (containsStr_append_left _ (containsStr_append_left _
      (containsStr_append_left _ (containsStr_refl _)))))))

theorem rejectContent_contains_args (tn : String) (args : Args) (rej : String) :
    ContainsStr (rejectContent tn args rej) (Json.dumps (Json.obj args)) := by
  unfold rejectContent
  exact containsStr_append_left _ (containsStr_append_left _ (containsStr_append_left _
    (containsStr_append_right _ (containsStr_refl _))))

theorem rejectContent_contains_rationale (tn : String) (args : Args) (rej : String)
    (h : rej ≠ "") : ContainsStr (rejectContent tn args rej) rej := by
  unfold rejectContent
  rw [if_pos h]
  exact containsStr_append_left _ (containsStr_append_left _ (containsStr_append_right _
    (containsStr_append_right _ (containsStr_refl _))))

theorem findFirst_of_filter_nil (X : String) :
    ∀ tcs : List ToolCall, tcs.filter (fun tc => decide (tc.id = X)) = [] →
    findToolCallArgsFirst tcs X = none := by
  intro tcs
  induction tcs with
  | nil => intro _; rfl
  | cons tc rest ih =>
      intro h
      by_cases hid : tc.id = X
      · simp [List.filter_cons, hid] at h
      · simp only [List.filter_cons] at h
        rw [findToolCallArgsFirst, if_neg hid]
        refine ih ?_
        simpa [hid] using h

theorem findFirst_of_filter_single (X : String) (tc0 : ToolCall) :
    ∀ tcs : List ToolCall, tcs.filter (fun tc => decide (tc.id = X)) = [tc0] →
    findToolCallArgsFirst tcs X = some tc0.args := by
  intro tcs
  induction tcs with
  | nil => intro h; simp at h
  | cons tc rest ih =>
      intro h
      by_cases hid : tc.id = X
      · simp only [List.filter_cons, hid] at h
        simp only [decide_eq_true_eq, if_pos trivial] at h
        have h2 : tc = tc0 ∧ rest.filter (fun tc => decide (tc.id = X)) = [] := by
          simpa using h
        rw [findToolCallArgsFirst, if_pos hid, h2.1]
      · simp only [List.filter_cons] at h
        rw [findToolCallArgsFirst, if_neg hid]
        refine ih ?_
        simpa [hid] using h

theorem append_eq_singleton {α : Type} {l1 l2 : List α} {a : α} (h : l1 ++ l2 = [a]) :
    (l1 = [] ∧ l2 = [a]) ∨ (l1 = [a] ∧ l2 = []) := by
  rcases List.append_eq_cons_iff.mp h with ⟨h1, h2⟩ | ⟨l1t, h1, h2⟩
  · exact Or.inl ⟨h1, h2⟩
  · right
    have hnil : l1t = [] ∧ l2 = [] := by
      constructor
      · cases l1t with
        | nil => rfl
        | cons x xs => simp at h2
      · cases l1t with
        | nil => simpa using h2.symm
        | cons x xs => simp at h2
    simp [h1, hnil.1, hnil.2]

theorem findOriginalArgsGo_of_filter_nil (X : String) :
    ∀ ms : List Message,
      (ms.flatMap messageToolCalls).filter (fun tc => decide (tc.id = X)) = [] →
      findOriginalArgsGo X ms = [] := by
  intro ms
  induction ms with
  | nil => intro _; rfl
  | cons m rest ih =>
      intro h
      rw [List.flatMap_cons, List.filter_append, List.append_eq_nil] at h
      cases m with
      | human content => exact ih h.2
      | tool content name tcid status => exact ih h.2
      | ai content tcs =>
          have hfirst : findToolCallArgsFirst tcs X = none :=
            findFirst_of_filter_nil X tcs h.1
          rw [findOriginalArgsGo, hfirst]
          exact ih h.2

theorem findOriginalArgsGo_of_filter_single (X : String) (tc0 : ToolCall) :
    ∀ ms : List Message,
      (ms.flatMap messageToolCalls).filter (fun tc => decide (tc.id = X)) = [tc0] →
      findOriginalArgsGo X ms = tc0.args := by
  intro ms
  induction ms with
  | nil => intro h; simp [messageToolCalls] at h
  | cons m rest ih =>
      intro h
      rw [List.flatMap_cons, List.filter_append] at h
      cases m with
      | human content => simpa [messageToolCalls] using ih (by simpa [messageToolCalls] using h)
      | tool content name tcid status =>
          simpa [messageToolCalls] using ih (by simpa [messageToolCalls] using h)
      | ai content tcs =>
          rcases append_eq_singleton h with ⟨hl, hr⟩ | ⟨hl, hr⟩
          · have hfirst : findToolCallArgsFirst tcs X = none := findFirst_of_filter_nil X tcs hl
            rw [findOriginalArgsGo, hfirst]
            exact ih hr
          · have hfirst : findToolCallArgsFirst tcs X = some tc0.args :=
              findFirst_of_filter_single X tc0 tcs hl
            simp only [findOriginalArgsGo, hfirst]
            by_cases hemp : tc0.args.isEmpty
            · rw [if_pos hemp, findOriginalArgsGo_of_filter_nil X rest hr]
              exact (List.isEmpty_iff.mp hemp).symm
            · rw [if_neg hemp]

theorem findOriginalArgs_of_no_match (messages : List Message) (X : String)
    (h : ∀ tc ∈ allToolCalls messages, tc.id ≠ X) :
    findOriginalArgs messages X = [] := by
  unfold findOriginalArgs
  apply findOriginalArgsGo_of_filter_nil
  rw [List.filter_eq_nil_iff]
  intro tc htc
  have hperm : List.Perm (messages.reverse.flatMap messageToolCalls)
      (messages.flatMap messageToolCalls) := (messages.reverse_perm).flatMap_right _
  have hmem : tc ∈ allToolCalls messages := by
    rw [allToolCalls]
    exact hperm.mem_iff.mp htc
  simp [h tc hmem]

theorem findOriginalArgs_of_unique (messages : List Message) (X : String) (tc0 : ToolCall)
    (h : (allToolCalls messages).filter (fun tc => decide (tc.id = X)) = [tc0]) :
    findOriginalArgs messages X = tc0.args := by
  unfold findOriginalArgs
  apply findOriginalArgsGo_of_filter_single
  have hperm : List.Perm
      ((messages.reverse.flatMap messageToolCalls).filter (fun tc => decide (tc.id = X)))
      ((messages.flatMap messageToolCalls).filter (fun tc => decide (tc.id = X))) :=
    ((messages.reverse_perm).flatMap_right _).filter _
  rw [allToolCalls] at h
  rw [h] at hperm
  exact hperm.eq_singleton

theorem beforeModelGo_calls_args (llm : LLM) (state : AgentState) :
    ∀ ms w c, c ∈ (beforeModelGo llm state ms w).2.1 →
      c.args = findOriginalArgs state.messages c.tool_call_id := by
  intro ms
  induction ms with
  | nil => intro w c hc; simp [beforeModelGo] at hc
  | cons m rest ih =>
      intro w c hc
      cases m with
      | human content =>
          simp only [beforeModelGo] at hc
          exact ih w c hc
      | ai content tcs =>
          simp only [beforeModelGo] at hc
          exact ih w c hc
      | tool content name tcid status =>
          by_cases hcond : status = "error" ∧ name ∈ interrupt_tools ∧ tcid ∉ w.processed
          · simp only [beforeModelGo, if_pos hcond] at hc
            cases hup : updateMemoryForReject llm name (findOriginalArgs state.messages tcid)
                content state w.store with
            | error e =>
                rw [hup] at hc
                simp at hc
                rw [hc]
            | ok store2 =>
                rw [hup] at hc
                simp at hc
                rcases hc with hc | hc
                · rw [hc]
                · exact ih _ c hc
          · simp only [beforeModelGo, if_neg hcond] at hc
            exact ih w c hc

theorem beforeModelGo_fail_single (llm : LLM) (state : AgentState) (err : String)
    (hfail : ∀ input, llm input = Except.error err) :
    ∀ ms w r, HasProfile w.store →
      ms.filterMap isInterruptibleRejection = [r] → r.tool_call_id ∉ w.processed →
      beforeModelGo llm state ms w =
        (w, [⟨r.tool_call_id, r.name, findOriginalArgs state.messages r.tool_call_id,
          r.content⟩], some (MemError.llmError err)) := by
  intro ms
  induction ms with
  | nil => intro w r _ hr _; simp at hr
  | cons m rest ih =>
      intro w r hw hr hX
      cases m with
      | human content =>
          rw [List.filterMap_cons] at hr
          simp only [isInterruptibleRejection] at hr
          simp only [beforeModelGo]
          exact ih w r hw hr hX
      | ai content tcs =>
          rw [List.filterMap_cons] at hr
          simp only [isInterruptibleRejection] at hr
          simp only [beforeModelGo]
          exact ih w r hw hr hX
      | tool content name tcid status =>
          by_cases hs : status = "error" ∧ name ∈ interrupt_tools
          · have hfm : (Message.tool content name tcid status :: rest).filterMap
                isInterruptibleRejection
                = ⟨content, name, tcid⟩ :: rest.filterMap isInterruptibleRejection := by
              simp [List.filterMap_cons, isInterruptibleRejection, hs]
            rw [hfm] at hr
            injection hr with h1 h2
            subst h1
            have hcond : status = "error" ∧ name ∈ interrupt_tools ∧ tcid ∉ w.processed :=
              ⟨hs.1, hs.2, hX⟩
            simp only [beforeModelGo, if_pos hcond]
            rw [updateMemoryForReject_fail llm name _ content state w.store err hfail hw]
          · have hfm : (Message.tool content name tcid status :: rest).filterMap
                isInterruptibleRejection
                = rest.filterMap isInterruptibleRejection := by
              simp [List.filterMap_cons, isInterruptibleRejection, hs]
            rw [hfm] at hr
            have hcond : ¬ (status = "error" ∧ name ∈ interrupt_tools ∧ tcid ∉ w.processed) := by
              intro hcon
              exact hs ⟨hcon.1, hcon.2.1⟩
            simp only [beforeModelGo, if_neg hcond]
            exact ih w r hw hr hX

/-! ## Claim theorems -/

/-- C6 counterexample: the synchronous path has two hook entry points
(`before_model`, `after_tool`) but the async section of the middleware does
not define an async counterpart for each of them — `aafter_tool` does not
exist, so the async path does not provide the same two hook entry points. -/
theorem claim6_counterexample :
    ¬ (∀ h ∈ syncHookEntryPoints, ("a" ++ h) ∈ asyncHookEntryPoints) := by
  decide

/-- C6 (amended): the async code path consists of the top-of-turn hook
`abefore_model` only (there is no async fallback hook); on that entry point
and on the memory helper the async path is an exact mirror: for every
input, `abefore_model` returns the same hook result (same detection
decisions, same updater calls with the same feedback message, same store
write, same ledger insertions, same returned value) as `before_model`, and
`aupdate_memory` and `_aupdate_memory_for_reject` agree with their
synchronous twins. -/
theorem claim6_async_mirrors_sync (llm : LLM) (state : AgentState) (w : World)
    (store : Store) (ns : String × String) (msgs : List ChatMsg)
    (tool_name : String) (args : Args) (rej : String) :
    abefore_model llm state w = before_model llm state w ∧
    aupdate_memory llm store ns msgs = update_memory llm store ns msgs ∧
    aupdateMemoryForReject llm tool_name args rej state store =
      updateMemoryForReject llm tool_name args rej state store ∧
    "abefore_model" ∈ asyncHookEntryPoints ∧ "aafter_tool" ∉ asyncHookEntryPoints :=
  ⟨abefore_model_eq_before_model llm state w, rfl, rfl, by decide, by decide⟩

/-- C7: a profile document written through `Store.put` at the fixed
namespace `("email_assistant", "user_profile")` and key `"user_preferences"`
(exactly the write the Profile Updater performs) and then read back through
`get_memory` at the same namespace/key is returned unchanged with no
further write; moreover after any successful `update_memory` the stored
document round-trips the same way. -/
theorem claim7_store_roundtrip (s : Store) (doc : String) (dflt : Option String)
    (llm : LLM) (msgs : List ChatMsg) (store2 : Store) :
    (get_memory (Store.put s userProfileNamespace "user_preferences" (some doc))
        userProfileNamespace dflt =
      (some doc, Store.put s userProfileNamespace "user_preferences" (some doc))) ∧
    (update_memory llm s userProfileNamespace msgs = Except.ok store2 →
      ∃ docr, Store.get store2 userProfileNamespace "user_preferences" = some (some docr) ∧
        get_memory store2 userProfileNamespace dflt = (some docr, store2)) := by
  constructor
  · simp [get_memory, Store.get_put_same]
  · intro hup
    cases hget : Store.get s userProfileNamespace "user_preferences" with
    | none => simp [update_memory, hget] at hup
    | some v =>
        cases hllm : llm (ChatMsg.system (memoryUpdateSystemPrompt v) :: msgs) with
        | error e => simp [update_memory, hget, hllm] at hup
        | ok r =>
            simp [update_memory, hget, hllm] at hup
            subst hup
            refine ⟨r.user_preferences, Store.get_put_same s userProfileNamespace
              "user_preferences" (some r.user_preferences), ?_⟩
            simp [get_memory, Store.get_put_same]

/-- C7 witness: the round trip evaluated on a concrete store, and the
successful-update hypothesis discharged with a concrete oracle. -/
theorem claim7_witness :
    (get_memory (Store.put wStore userProfileNamespace "user_preferences" (some "doc"))
        userProfileNamespace none =
      (some "doc", Store.put wStore userProfileNamespace "user_preferences" (some "doc"))) ∧
    (∃ docr, Store.get (Store.put wStore userProfileNamespace "user_preferences"
          (some "the profile")) userProfileNamespace "user_preferences" = some (some docr) ∧
      get_memory (Store.put wStore userProfileNamespace "user_preferences"
          (some "the profile")) userProfileNamespace none =
        (some docr, Store.put wStore userProfileNamespace "user_preferences"
          (some "the profile"))) := by
  have h := claim7_store_roundtrip wStore "doc" none okLLM []
    (Store.put wStore userProfileNamespace "user_preferences" (some "the profile"))
  exact ⟨h.1, h.2 rfl⟩

/-- C8: `get_memory` returns the stored profile value unchanged with no
write when an item exists at the namespace/key, and otherwise writes the
supplied default there and returns the default (the profile is created on
first read). -/
theorem claim8_get_memory_seeds (s : Store) (ns : String × String) (dflt : Option String)
    (v : Option String) :
    (Store.get s ns "user_preferences" = some v → get_memory s ns dflt = (v, s)) ∧
    (Store.get s ns "user_preferences" = none →
      get_memory s ns dflt = (dflt, Store.put s ns "user_preferences" dflt)) := by
  constructor
  · intro h
    simp [get_memory, h]
  · intro h
    simp [get_memory, h]

/-- C8 witness: both branches evaluated on concrete stores. -/
theorem claim8_witness :
    get_memory wStore userProfileNamespace (some "default") = (some "the profile", wStore) ∧
    get_memory [] userProfileNamespace (some "default") =
      (some "default", Store.put [] userProfileNamespace "user_preferences"
        (some "default")) :=
  ⟨(claim8_get_memory_seeds wStore userProfileNamespace (some "default")
      (some "the profile")).1 rfl,
   (claim8_get_memory_seeds [] userProfileNamespace (some "default") none).2 rfl⟩

/-- C9: `update_memory` and `aupdate_memory` presuppose an existing profile
item: when the store holds nothing at the namespace/key they raise the
attribute error before invoking the model (for every oracle, hence without
consulting it) and before any write (the error result carries no store);
when an item exists, that failure branch is unreachable. -/
theorem claim9_update_memory_presupposes_profile (s : Store) (ns : String × String)
    (msgs : List ChatMsg) :
    (Store.get s ns "user_preferences" = none →
      ∀ llm, update_memory llm s ns msgs = Except.error MemError.attributeError ∧
        aupdate_memory llm s ns msgs = Except.error MemError.attributeError) ∧
    (∀ v llm, Store.get s ns "user_preferences" = some v →
      update_memory llm s ns msgs ≠ Except.error MemError.attributeError ∧
      aupdate_memory llm s ns msgs ≠ Except.error MemError.attributeError) := by
  constructor
  · intro h llm
    constructor <;> simp [update_memory, aupdate_memory, h]
  · intro v llm h
    rw [aupdate_memory_eq_update_memory]
    have hne : update_memory llm s ns msgs ≠ Except.error MemError.attributeError := by
      unfold update_memory
      rw [h]
      cases hl : llm (ChatMsg.system (memoryUpdateSystemPrompt v) :: msgs) <;> simp [hl]
    exact ⟨hne, hne⟩

/-- C9 witness: the raising branch on the empty store and the unreachable
branch on a store holding a profile. -/
theorem claim9_witness :
    (update_memory okLLM [] userProfileNamespace [] =
        Except.error MemError.attributeError ∧
      aupdate_memory okLLM [] userProfileNamespace [] =
        Except.error MemError.attributeError) ∧
    (update_memory okLLM wStore userProfileNamespace [] ≠
        Except.error MemError.attributeError ∧
      aupdate_memory okLLM wStore userProfileNamespace [] ≠
        Except.error MemError.attributeError) :=
  ⟨(claim9_update_memory_presupposes_profile [] userProfileNamespace []).1 rfl okLLM,
   (claim9_update_memory_presupposes_profile wStore userProfileNamespace []).2
     (some "the profile") okLLM rfl⟩

/-- C10: the three hooks always return `None` to the framework: their
returned value channel is `none` on every input, so no agent-state update
is ever produced through the hook return value; the only effects are the
store write and the processed-set insertion carried by the world. -/
theorem claim10_hooks_return_none (llm : LLM) (state : AgentState) (w : World) :
    (before_model llm state w).ret = none ∧ (after_tool llm state w).ret = none ∧
    (abefore_model llm state w).ret = none := by
  refine ⟨rfl, ?_, rfl⟩
  by_cases he : state.messages.isEmpty
  · simp [after_tool, he]
  · simp [after_tool, he]

/-- C4: for every rejected tool call the composed feedback message contains
the serialized arguments and, when one is present, the human rationale
verbatim; and it carries the tool-specific critique: for `write_email` a
mention of triage criteria and of response style preferences, for
`schedule_meeting` a mention of triage criteria and of meeting scheduling
preferences, for `Question` a mention of when questions should be asked or
how they should be phrased, and for any other tool name a generic critique
naming the tool. -/
theorem claim4_feedback_message (tool_name : String) (args : Args) (rej : String) :
    ContainsStr (rejectContent tool_name args rej) (Json.dumps (Json.obj args)) ∧
    (rej ≠ "" → ContainsStr (rejectContent tool_name args rej) rej) ∧
    (tool_name = "write_email" →
      ContainsStr (rejectContent tool_name args rej) "triage criteria" ∧
      ContainsStr (rejectContent tool_name args rej) "response style preferences") ∧
    (tool_name = "schedule_meeting" →
      ContainsStr (rejectContent tool_name args rej) "triage criteria" ∧
      ContainsStr (rejectContent tool_name args rej) "meeting scheduling preferences") ∧
    (tool_name = "Question" →
      ContainsStr (rejectContent tool_name args rej)
        "when questions should be asked or how they should be phrased") ∧
    (tool_name ≠ "write_email" → tool_name ≠ "schedule_meeting" → tool_name ≠ "Question" →
      ContainsStr (rejectContent tool_name args rej)
        ("The user rejected the " ++ tool_name ++ " tool call.")) := by
  refine ⟨rejectContent_contains_args tool_name args rej,
    fun h => rejectContent_contains_rationale tool_name args rej h, ?_, ?_, ?_, ?_⟩
  · intro h
    subst h
    have hfb : ContainsStr (rejectFeedback "write_email") "triage criteria" :=
      ⟨"The user rejected the email draft, meaning they did not want to respond to this email. Update the User Profile to refine ",
       " (which emails warrant responses) and/or response style preferences based on what was wrong with the draft.",
       rfl⟩
    have hfb2 : ContainsStr (rejectFeedback "write_email") "response style preferences" :=
      ⟨"The user rejected the email draft, meaning they did not want to respond to this email. Update the User Profile to refine triage criteria (which emails warrant responses) and/or ",
       " based on what was wrong with the draft.", rfl⟩
    exact ⟨containsStr_trans (rejectContent_contains_feedback _ args rej) hfb,
      containsStr_trans (rejectContent_contains_feedback _ args rej) hfb2⟩
  · intro h
    subst h
    have hfb : ContainsStr (rejectFeedback "schedule_meeting") "triage criteria" :=
      ⟨"The user rejected the meeting invitation, meaning they did not want to schedule this meeting. Update the User Profile to refine ",
       " (which meeting requests warrant scheduling) and/or meeting scheduling preferences based on what was wrong with the invitation.",
       rfl⟩
    have hfb2 : ContainsStr (rejectFeedback "schedule_meeting")
        "meeting scheduling preferences" :=
      ⟨"The user rejected the meeting invitation, meaning they did not want to schedule this meeting. Update the User Profile to refine triage criteria (which meeting requests warrant scheduling) and/or ",
       " based on what was wrong with the invitation.", rfl⟩
    exact ⟨containsStr_trans (rejectContent_contains_feedback _ args rej) hfb,
      containsStr_trans (rejectContent_contains_feedback _ args rej) hfb2⟩
  · intro h
    subst h
    have hfb : ContainsStr (rejectFeedback "Question")
        "when questions should be asked or how they should be phrased" :=
      ⟨"The user rejected the clarification question, meaning they did not want to ask this question. Update the User Profile to refine ",
       ".", rfl⟩
    exact containsStr_trans (rejectContent_contains_feedback _ args rej) hfb
  · intro h1 h2 h3
    have hfb : ContainsStr (rejectFeedback tool_name)
        ("The user rejected the " ++ tool_name ++ " tool call.") := by
      unfold rejectFeedback
      rw [if_neg h1, if_neg h2, if_neg h3]
      refine ⟨"", " Update the User Profile to learn from this feedback and avoid similar rejections in the future.", ?_⟩
      have hsplit : (" tool call. Update the User Profile to learn from this feedback and avoid similar rejections in the future." : String) =
          " tool call." ++ " Update the User Profile to learn from this feedback and avoid similar rejections in the future." := rfl
      rw [hsplit]
      simp [String.append_assoc, String.empty_append]
    exact containsStr_trans (rejectContent_contains_feedback _ args rej) hfb

/-- C4 witness: a `write_email` rejection with rationale `"too formal"`
yields feedback containing the literal rationale, the triage and response
style mentions, and the serialized arguments. -/
theorem claim4_witness :
    ("too formal" : String) ≠ "" ∧
    ContainsStr (rejectContent "write_email" [("to", Json.str "bob@example.com")] "too formal")
      "too formal" ∧
    ContainsStr (rejectContent "write_email" [("to", Json.str "bob@example.com")] "too formal")
      "triage criteria" ∧
    ContainsStr (rejectContent "write_email" [("to", Json.str "bob@example.com")] "too formal")
      "response style preferences" ∧
    ContainsStr (rejectContent "write_email" [("to", Json.str "bob@example.com")] "too formal")
      (Json.dumps (Json.obj [("to", Json.str "bob@example.com")])) := by
  have h := claim4_feedback_message "write_email" [("to", Json.str "bob@example.com")]
    "too formal"
  exact ⟨by decide, h.2.1 (by decide), (h.2.2.1 rfl).1, (h.2.2.1 rfl).2, h.1⟩

/-- C2: one hook invocation processes exactly the rejected interruptible
tool results whose identifier is not yet processed — all of them, traversed
newest-first: under distinct identifiers the identifiers of the updater
calls are precisely the newest-first unprocessed rejection identifiers (so
successful results and non-interruptible tools are never processed), every
processed identifier is recorded, two rejections with distinct identifiers
yield two independent updater calls with both identifiers ending processed,
and `after_tool` performs the identical processing. -/
theorem claim2_detector_completeness (llm : LLM) (state : AgentState) (w : World)
    (hllm : LLMok llm) (hw : HasProfile w.store)
    (hnd : ((interruptibleRejections state.messages).map (fun r => r.tool_call_id)).Nodup) :
    (before_model llm state w).raised = none ∧
    (before_model llm state w).calls.map (fun c => c.tool_call_id) =
      ((interruptibleRejections state.messages).map (fun r => r.tool_call_id)).filter
        (fun i => decide (i ∉ w.processed)) ∧
    (before_model llm state w).world.processed =
      ((before_model llm state w).calls.map (fun c => c.tool_call_id)).reverse ++
        w.processed ∧
    (∀ c ∈ (before_model llm state w).calls,
      ∃ r, r ∈ interruptibleRejections state.messages ∧
        c = ⟨r.tool_call_id, r.name, findOriginalArgs state.messages r.tool_call_id,
          r.content⟩ ∧ r.tool_call_id ∉ w.processed) ∧
    (∀ r1 r2, interruptibleRejections state.messages = [r1, r2] →
      r1.tool_call_id ∉ w.processed → r2.tool_call_id ∉ w.processed →
      (before_model llm state w).calls =
        [⟨r1.tool_call_id, r1.name, findOriginalArgs state.messages r1.tool_call_id,
          r1.content⟩,
         ⟨r2.tool_call_id, r2.name, findOriginalArgs state.messages r2.tool_call_id,
          r2.content⟩] ∧
      r1.tool_call_id ∈ (before_model llm state w).world.processed ∧
      r2.tool_call_id ∈ (before_model llm state w).world.processed) ∧
    after_tool llm state w = before_model llm state w := by
  obtain ⟨store2, heq, hst⟩ := before_model_spec llm state w hllm hw
  rw [heq]
  refine ⟨rfl, detectSpec_calls_ids state.messages _ w.processed hnd,
    detectSpec_processed state.messages _ w.processed,
    fun c hc => detectSpec_calls_mem state.messages _ w.processed c hc, ?_,
    (after_tool_eq_before_model llm state w).trans heq⟩
  intro r1 r2 hr h1 h2
  rw [hr] at hnd
  have hne : r2.tool_call_id ≠ r1.tool_call_id := by
    simp [List.nodup_cons] at hnd
    exact fun hcon => hnd hcon.symm
  rw [hr]
  refine ⟨?_, ?_, ?_⟩
  · simp [detectSpec, h1, h2, hne]
  · simp [detectSpec, h1, h2, hne]
  · simp [detectSpec, h1, h2, hne]

/-- C2 witness: a history with two distinct rejections plus a successful
result and a non-interruptible error; the hook processes exactly the two
rejections, newest first. -/
theorem claim2_witness :
    ((interruptibleRejections wMessages2).map (fun r => r.tool_call_id)).Nodup ∧
    (before_model okLLM ⟨wMessages2⟩ ⟨wStore, []⟩).raised = none ∧
    (before_model okLLM ⟨wMessages2⟩ ⟨wStore, []⟩).calls.map (fun c => c.tool_call_id) =
      ["id2", "id1"] := by
  have h := claim2_detector_completeness okLLM ⟨wMessages2⟩ ⟨wStore, []⟩
    (fun input => ⟨⟨"the profile"⟩, rfl⟩) rfl (by decide)
  refine ⟨by decide, h.1, ?_⟩
  rw [h.2.1]
  decide

/-- C1: for a history containing exactly one rejected interruptible tool
result, with correlation identifier X not yet processed, any sequence of
`before_model` / `after_tool` invocations within the turn invokes the
profile updater at most once for X; when at least one hook runs, X is
processed exactly once and ends up exactly once in the processed set; and
once X is in the processed set, every further detection attempt is a no-op
(world unchanged, no updater call, nothing raised). -/
theorem claim1_dedup_invariant (llm : LLM) (state : AgentState) (w : World)
    (X nm rc : String) (hooks : List HookPoint)
    (hllm : LLMok llm) (hw : HasProfile w.store)
    (hrej : interruptibleRejections state.messages = [⟨rc, nm, X⟩])
    (hX : X ∉ w.processed) :
    ((runTurn llm state hooks w).2.filter (fun c => decide (c.tool_call_id = X))).length ≤ 1 ∧
    (hooks ≠ [] →
      ((runTurn llm state hooks w).2.filter
        (fun c => decide (c.tool_call_id = X))).length = 1 ∧
      (runTurn llm state hooks w).1.processed.count X = 1) ∧
    (∀ hp w2, X ∈ w2.processed → runHook llm state hp w2 = ⟨w2, [], none, none⟩) := by
  have hnoop : ∀ hp w2, X ∈ w2.processed → runHook llm state hp w2 = ⟨w2, [], none, none⟩ := by
    intro hp w2 hX2
    apply runHook_noop
    intro r hr
    rw [hrej] at hr
    simp at hr
    rw [hr]
    exact hX2
  have hmain : ∀ hp hs, ∃ store2,
      runTurn llm state (hp :: hs) w =
        (⟨store2, X :: w.processed⟩,
         [⟨X, nm, findOriginalArgs state.messages X, rc⟩]) := by
    intro hp hs
    obtain ⟨store2, hh, hst⟩ := runHook_spec llm state w hp hllm hw
    rw [hrej] at hh
    have hds1 : (detectSpec state.messages [⟨rc, nm, X⟩] w.processed).1 =
        [⟨X, nm, findOriginalArgs state.messages X, rc⟩] := by
      simp [detectSpec, hX]
    have hds2 : (detectSpec state.messages [⟨rc, nm, X⟩] w.processed).2 =
        X :: w.processed := by
      simp [detectSpec, hX]
    rw [hds1, hds2] at hh
    refine ⟨store2, ?_⟩
    have hrest : runTurn llm state hs ⟨store2, X :: w.processed⟩ =
        (⟨store2, X :: w.processed⟩, []) := by
      apply runTurn_noop
      intro r hr
      rw [hrej] at hr
      simp at hr
      rw [hr]
      exact List.mem_cons_self _ _
    simp [runTurn, hh, hrest]
  refine ⟨?_, ?_, hnoop⟩
  · cases hooks with
    | nil => simp [runTurn]
    | cons hp hs =>
        obtain ⟨store2, hrun⟩ := hmain hp hs
        rw [hrun]
        simp
  · intro hne
    cases hooks with
    | nil => exact absurd rfl hne
    | cons hp hs =>
        obtain ⟨store2, hrun⟩ := hmain hp hs
        rw [hrun]
        constructor
        · simp
        · simp [List.count_cons, List.count_eq_zero.mpr hX]

/-- C1 witness: one rejection with identifier `id1`, both hooks run in one
turn; the updater fires once, `id1` is counted once in the processed set,
and the no-op clause holds for every later attempt. -/
theorem claim1_witness :
    ((runTurn okLLM ⟨wMessages⟩ [HookPoint.beforeModel, HookPoint.afterTool]
        ⟨wStore, []⟩).2.filter (fun c => decide (c.tool_call_id = "id1"))).length ≤ 1 ∧
    (([HookPoint.beforeModel, HookPoint.afterTool] : List HookPoint) ≠ [] →
      ((runTurn okLLM ⟨wMessages⟩ [HookPoint.beforeModel, HookPoint.afterTool]
          ⟨wStore, []⟩).2.filter (fun c => decide (c.tool_call_id = "id1"))).length = 1 ∧
      (runTurn okLLM ⟨wMessages⟩ [HookPoint.beforeModel, HookPoint.afterTool]
          ⟨wStore, []⟩).1.processed.count "id1" = 1) ∧
    (∀ hp w2, "id1" ∈ w2.processed →
      runHook okLLM ⟨wMessages⟩ hp w2 = ⟨w2, [], none, none⟩) :=
  claim1_dedup_invariant okLLM ⟨wMessages⟩ ⟨wStore, []⟩ "id1" "write_email" "too formal"
    [HookPoint.beforeModel, HookPoint.afterTool] (fun input => ⟨⟨"the profile"⟩, rfl⟩)
    rfl (by decide) (by decide)

/-- C3: when no assistant message carries a tool call with the rejected
identifier, the argument reconstruction returns the empty mapping (it is a
total function, so nothing is raised) and every updater call the hook makes
for that identifier carries empty arguments — reconciliation proceeds with
the feedback composed over the empty mapping; when exactly one assistant
tool call matches the identifier, its argument mapping is returned. -/
theorem claim3_reconstructor_degrades (state : AgentState) (X : String) :
    ((∀ tc ∈ allToolCalls state.messages, tc.id ≠ X) →
      findOriginalArgs state.messages X = [] ∧
      (∀ llm w c, c ∈ (before_model llm state w).calls → c.tool_call_id = X →
        c.args = [])) ∧
    (∀ tc0, (allToolCalls state.messages).filter (fun tc => decide (tc.id = X)) = [tc0] →
      findOriginalArgs state.messages X = tc0.args) := by
  constructor
  · intro h
    have hempty : findOriginalArgs state.messages X = [] :=
      findOriginalArgs_of_no_match state.messages X h
    refine ⟨hempty, ?_⟩
    intro llm w c hc hcid
    have hshape : c.args = findOriginalArgs state.messages c.tool_call_id :=
      beforeModelGo_calls_args llm state state.messages.reverse w c hc
    rw [hshape, hcid, hempty]
  · intro tc0 h
    exact findOriginalArgs_of_unique state.messages X tc0 h

/-- C3 witness: a history whose only rejection has no matching assistant
tool call reconstructs the empty mapping, and the hook still performs the
update with empty arguments; a history with a unique matching tool call
reconstructs its argument mapping. -/
theorem claim3_witness :
    findOriginalArgs [Message.tool "nope" "Question" "idX" "error"] "idX" = [] ∧
    (∀ llm w c,
      c ∈ (before_model llm ⟨[Message.tool "nope" "Question" "idX" "error"]⟩ w).calls →
      c.tool_call_id = "idX" → c.args = []) ∧
    findOriginalArgs wMessages "id1" = [("to", Json.str "bob@example.com")] := by
  have h1 := (claim3_reconstructor_degrades
    ⟨[Message.tool "nope" "Question" "idX" "error"]⟩ "idX").1 (by decide)
  have h2 := (claim3_reconstructor_degrades ⟨wMessages⟩ "id1").2
    ⟨"id1", "write_email", [("to", Json.str "bob@example.com")]⟩ rfl
  exact ⟨h1.1, h1.2, h2⟩

/-- C5: when the language-model call raises for the single rejection X, the
exception propagates out of `before_model` (recorded in `raised`), the
world — store and processed set alike — is left unchanged and X is not
marked processed, so the fallback `after_tool` in the same turn re-attempts
the very same update (raising again under the same oracle); under an oracle
whose call completes, the fallback performs the update and only then is X
marked. -/
theorem claim5_llm_failure_no_mark (llm llm2 : LLM) (state : AgentState) (w : World)
    (X nm rc err : String)
    (hfail : ∀ input, llm input = Except.error err) (hllm2 : LLMok llm2)
    (hw : HasProfile w.store)
    (hrej : interruptibleRejections state.messages = [⟨rc, nm, X⟩])
    (hX : X ∉ w.processed) :
    (before_model llm state w).raised = some (MemError.llmError err) ∧
    (before_model llm state w).world = w ∧
    (before_model llm state w).calls =
      [⟨X, nm, findOriginalArgs state.messages X, rc⟩] ∧
    X ∉ (before_model llm state w).world.processed ∧
    (after_tool llm state (before_model llm state w).world).calls =
      [⟨X, nm, findOriginalArgs state.messages X, rc⟩] ∧
    (after_tool llm state (before_model llm state w).world).raised =
      some (MemError.llmError err) ∧
    (∃ store2, after_tool llm2 state (before_model llm state w).world =
      ⟨⟨store2, X :: w.processed⟩, [⟨X, nm, findOriginalArgs state.messages X, rc⟩],
        none, none⟩) := by
  have hgo : beforeModelGo llm state state.messages.reverse w =
      (w, [⟨X, nm, findOriginalArgs state.messages X, rc⟩],
        some (MemError.llmError err)) :=
    beforeModelGo_fail_single llm state err hfail state.messages.reverse w
      ⟨rc, nm, X⟩ hw hrej hX
  have hbm : before_model llm state w =
      ⟨w, [⟨X, nm, findOriginalArgs state.messages X, rc⟩],
        some (MemError.llmError err), none⟩ := by
    simp [before_model, hgo]
  have hne : ¬ state.messages.isEmpty := by
    intro he
    have hnil := List.isEmpty_iff.mp he
    rw [hnil] at hrej
    simp [interruptibleRejections] at hrej
  have hat : after_tool llm state w =
      ⟨w, [⟨X, nm, findOriginalArgs state.messages X, rc⟩],
        some (MemError.llmError err), none⟩ := by
    simp [after_tool, hne, afterToolGo_eq, hgo]
  obtain ⟨store2, hh, hst⟩ := after_tool_spec llm2 state w hllm2 hw
  rw [hrej] at hh
  have hds1 : (detectSpec state.messages [⟨rc, nm, X⟩] w.processed).1 =
      [⟨X, nm, findOriginalArgs state.messages X, rc⟩] := by
    simp [detectSpec, hX]
  have hds2 : (detectSpec state.messages [⟨rc, nm, X⟩] w.processed).2 =
      X :: w.processed := by
    simp [detectSpec, hX]
  rw [hds1, hds2] at hh
  rw [hbm]
  exact ⟨rfl, rfl, rfl, hX, by rw [hat], by rw [hat], ⟨store2, hh⟩⟩

/-- C5 witness: with the always-raising oracle the hook attempts the update
for `id1`, propagates the error, leaves the world unchanged and `id1`
unmarked; the fallback re-attempts, and with the succeeding oracle the
fallback completes the update and marks `id1`. -/
theorem claim5_witness :
    (before_model failLLM ⟨wMessages⟩ ⟨wStore, []⟩).raised =
      some (MemError.llmError "boom") ∧
    (before_model failLLM ⟨wMessages⟩ ⟨wStore, []⟩).world = ⟨wStore, []⟩ ∧
    (before_model failLLM ⟨wMessages⟩ ⟨wStore, []⟩).calls =
      [⟨"id1", "write_email", findOriginalArgs wMessages "id1", "too formal"⟩] ∧
    "id1" ∉ (before_model failLLM ⟨wMessages⟩ ⟨wStore, []⟩).world.processed ∧
    (after_tool failLLM ⟨wMessages⟩
        (before_model failLLM ⟨wMessages⟩ ⟨wStore, []⟩).world).calls =
      [⟨"id1", "write_email", findOriginalArgs wMessages "id1", "too formal"⟩] ∧
    (after_tool failLLM ⟨wMessages⟩
        (before_model failLLM ⟨wMessages⟩ ⟨wStore, []⟩).world).raised =
      some (MemError.llmError "boom") ∧
    (∃ store2, after_tool okLLM ⟨wMessages⟩
        (before_model failLLM ⟨wMessages⟩ ⟨wStore, []⟩).world =
      ⟨⟨store2, ["id1"]⟩,
       [⟨"id1", "write_email", findOriginalArgs wMessages "id1", "too formal"⟩],
       none, none⟩) :=
  claim5_llm_failure_no_mark failLLM okLLM ⟨wMessages⟩ ⟨wStore, []⟩ "id1" "write_email"
    "too formal" "boom" (fun input => rfl) (fun input => ⟨⟨"the profile"⟩, rfl⟩) rfl
    (by decide) (by decide)
